/-
Verification of the MATLAB easy-installer script (easy_install.py).

The script is a thin orchestration layer: it resolves a MATLAB version
identifier, searches a small set of candidate directories for support files,
assembles an options mapping, and invokes the vendor installer, optionally
managing a symbolic link.  We embed the pure decision logic of each method
shallowly: the filesystem is an explicit record of query functions, process
spawns and prints become elements of an effect trace, and Python exceptions
become an explicit error sum type.
-/
import Mathlib

namespace EasyInstall

/-- The Python exceptions the script can raise, with their messages. -/
inductive PyError where
  | typeError (msg : String)
  | valueError (msg : String)
  | notADirectoryError (msg : String)
  | fileNotFoundError (msg : String)
  | runtimeError (msg : String)
deriving DecidableEq, Repr

/-- The two values of `os.name` the script branches on. -/
inductive OsName where
  | nt
  | posix
deriving DecidableEq, Repr

/-- `os.path.join` for two components, POSIX semantics (the separator spelling
on Windows differs but no verified property depends on it): an absolute second
component wins, an empty or slash-terminated first component is not given an
extra separator. -/
def pjoin (a b : String) : String :=
  if b.data.head? = some '/' then b
  else if a = "" then b
  else if a.data.getLast? = some '/' then a ++ b
  else a ++ "/" ++ b

/-- The whitespace characters stripped by Python `str.rstrip()` (ASCII part;
the script only ever meets ASCII file content). -/
def isPySpace (c : Char) : Bool :=
  c = ' ' || c = '\t' || c = '\n' || c = '\r' ||
    c = Char.ofNat 11 || c = Char.ofNat 12

/-- `str.rstrip()` on a character list: drop trailing whitespace. -/
def rstripL (l : List Char) : List Char :=
  (l.reverse.dropWhile isPySpace).reverse

/-- `str.rstrip()` on strings. -/
def pyRstrip (s : String) : String :=
  String.mk (rstripL s.data)

/-- `int(...)` on a digit string: fold decimal digits into a number. -/
def digitsToNat (l : List Char) : Nat :=
  l.foldl (fun n c => n * 10 + (c.toNat - 48)) 0

/-- Matcher for the regex `^\d+-\d+-\d+-\d+$` instantiated with `n` digit
groups: one-or-more digits, then, if further groups remain, a hyphen and the
rest.  Python `$` also matches just before one final newline, hence the
`[newline]` terminal case. -/
def keyGroups (l : List Char) (n : Nat) : Bool :=
  let ds := l.takeWhile Char.isDigit
  let rest := l.dropWhile Char.isDigit
  ds ≠ [] &&
    match n with
    | 0 => false
    | 1 => rest = [] || rest = ['\n']
    | m + 2 =>
      match rest with
      | c :: r => c = '-' && keyGroups r (m + 1)
      | [] => false

/-- `FILE_INSTALL_KEY_REGEX = re.compile(r"^\d+-\d+-\d+-\d+$")`, as a
whole-string matcher (`.match` with both anchors). -/
def file_install_key_match (s : String) : Bool :=
  keyGroups s.data 4

/-- `MATLAB_VERSION_REGEX = re.compile(r"^R(?P<year>\d+)(?P<minor>[ab])$")`:
on success yields the `year` group as a number and the `minor` group
character.  Python `$` also accepts one final newline. -/
def parseVersionL (l : List Char) : Option (Nat × Char) :=
  match l with
  | r :: rest =>
    if r = 'R' then
      let ds := rest.takeWhile Char.isDigit
      let tail := rest.dropWhile Char.isDigit
      if ds = [] then none
      else
        match tail with
        | [m] => if m = 'a' ∨ m = 'b' then some (digitsToNat ds, m) else none
        | [m, c] =>
          if (m = 'a' ∨ m = 'b') ∧ c = '\n' then some (digitsToNat ds, m)
          else none
        | _ => none
    else none
  | [] => none

/-- `MATLAB_VERSION_REGEX.match` on strings. -/
def parseVersion (s : String) : Option (Nat × Char) :=
  parseVersionL s.data

/-- `matlab_version_to_key`: `int(match.group("year")) * 2 +
ord(match.group("minor"))`.  The source raises `AttributeError` when the
pattern does not match (`match` is `None`); every caller filters or validates
first, so the `0` default is never reached in verified statements. -/
def matlab_version_to_key (version : String) : Nat :=
  match parseVersion version with
  | some (year, minor) => year * 2 + minor.toNat
  | none => 0

/-- The filesystem as the script queries it: current working directory,
directory test, directory listing, bare path-existence test, and file
reading. -/
structure FS where
  cwd : String
  isdir : String → Bool
  listdir : String → List String
  pathExists : String → Bool
  readFile : String → String

/-- `FILE_INSTALL_KEY_FILE = "file_install_key.txt"`. -/
def FILE_INSTALL_KEY_FILE : String := "file_install_key.txt"

/-- `LICENSE_FILE_NAME = "license.dat"`. -/
def LICENSE_FILE_NAME : String := "license.dat"

/-- `INSTALLER_NAME = "setup.exe" if os.name == "nt" else "install"`. -/
def INSTALLER_NAME (os : OsName) : String :=
  if os = .nt then "setup.exe" else "install"

/-- `find_file_in_directory(file_name, root_path)`: with `root_path`
defaulting to the current directory, return `join(root, file_name)` when
`root` is a directory whose listing contains `file_name`, else `None`. -/
def find_file_in_directory (fs : FS) (file_name : String)
    (root_path : Option String) : Option String :=
  let root := root_path.getD fs.cwd
  if fs.isdir root && (fs.listdir root).contains file_name then
    some (pjoin root file_name)
  else none

/-- `find_file_path(file_name)`: search, in order, the current directory,
`[cwd]/[version]`, and — only when the script directory is non-empty — the
script directory and `[script dir]/[version]`; keep the non-`None` results and
return the first, raising `FileNotFoundError` when there is none. -/
def find_file_path (fs : FS) (this_script_dir matlab_version : String)
    (file_name : String) : Except PyError String :=
  let current_dir := fs.cwd
  let directory_candidates :=
    [current_dir, pjoin current_dir matlab_version] ++
      (if this_script_dir ≠ "" then
        [this_script_dir, pjoin this_script_dir matlab_version]
      else [])
  let result_file_paths :=
    directory_candidates.filterMap
      (fun d => find_file_in_directory fs file_name (some d))
  match result_file_paths with
  | [] => .error (.fileNotFoundError
      ("No files named " ++ file_name ++ " are found"))
  | p :: _ => .ok p

/-- Python `max(xs, key=k)` on a nonempty list: left fold that replaces the
accumulator only on a strictly greater key, hence keeps the first maximal
element. -/
def pymaxBy (key : String → Nat) (x : String) (xs : List String) : String :=
  xs.foldl (fun acc y => if key acc < key y then y else acc) x

/-- `find_latest_matlab_version()`: keep the working-directory entries that
are directories and match the version pattern; raise `FileNotFoundError` when
none remain, else take the maximum under `matlab_version_to_key`. -/
def find_latest_matlab_version (fs : FS) : Except PyError String :=
  let matlab_versions :=
    (fs.listdir fs.cwd).filter
      (fun d => fs.isdir d && (parseVersion d).isSome)
  match matlab_versions with
  | [] => .error (.fileNotFoundError "There are no directories of MATLAB.")
  | x :: xs => .ok (pymaxBy matlab_version_to_key x xs)

/-- The version-resolution part of `__init__`.  `if args.matlab_version:` is
Python truthiness, so `None` and `""` both fall to the scan branch.  In the
explicit branch, line 149 reads
`if not MATLABInstaller.MATLAB_VERSION_REGEX(args.matlab_version):` — it
calls the compiled `re.Pattern` object itself instead of its `match` method,
and a pattern object is not callable, so Python raises `TypeError` before any
validation happens. -/
def init_matlab_version (fs : FS) (matlab_version_arg : Option String) :
    Except PyError String :=
  if (matlab_version_arg.getD "") ≠ "" then
    .error (.typeError "re.Pattern object is not callable")
  else
    find_latest_matlab_version fs

/-- The default installed-binary path tested by `check_already_installed`:
`"C:\Program Files\MATLAB\[v]\bin\matlab.exe"` on Windows,
`"/usr/local/MATLAB/[v]/bin/matlab"` otherwise. -/
def matlab_bin_default_path (os : OsName) (version : String) : String :=
  if os = .nt then
    "C:\\Program Files\\MATLAB\\" ++ version ++ "\\bin\\matlab.exe"
  else
    "/usr/local/MATLAB/" ++ version ++ "/bin/matlab"

/-- `check_already_installed(version)`: test existence of the default binary
path, or of `self.install_path` when a destination override was supplied. -/
def check_already_installed (os : OsName) (fs : FS)
    (install_path : Option String) (version : String) : Bool :=
  fs.pathExists
    (match install_path with
     | none => matlab_bin_default_path os version
     | some p => p)

/-- `get_installer_cmd()`: resolve the installer executable via
`find_file_path`; prefix `sudo` unless on Windows or running as root. -/
def get_installer_cmd (os : OsName) (uid : Nat) (fs : FS)
    (this_script_dir matlab_version : String) :
    Except PyError (List String) :=
  match find_file_path fs this_script_dir matlab_version
      (INSTALLER_NAME os) with
  | .error e => .error e
  | .ok installer_path =>
    .ok (if os = .nt ∨ uid = 0 then [installer_path]
         else ["sudo", installer_path])

/-- `get_file_install_key(path)`: read the file, strip trailing whitespace,
return the key when it matches the key pattern and raise `RuntimeError`
otherwise. -/
def get_file_install_key (fs : FS) (path : String) : Except PyError String :=
  let key := pyRstrip (fs.readFile path)
  if file_install_key_match key then .ok key
  else
    .error (.runtimeError
      ("The file install key " ++ key ++ " in " ++ path ++
        " is not a valid one."))

/-- An option value: the script stores strings except for the automated-mode
timeout, an `int`. -/
inductive OptVal where
  | str (s : String)
  | int (n : Nat)
deriving DecidableEq, Repr

/-- `str(val)` as used when flattening options. -/
def OptVal.toStr : OptVal → String
  | .str s => s
  | .int n => toString n

/-- `add_options()`: build the insertion-ordered options mapping.  License
agreement first; then the run mode (silent for batch, automated plus the 5000
timeout for automate, interactive otherwise); then the validated file install
key and the located license file; finally the destination folder when an
install path was given.  All keys are distinct, so an insertion-ordered
association list models the Python dict exactly. -/
def add_options (fs : FS) (this_script_dir matlab_version : String)
    (batch automate : Bool) (install_path : Option String) :
    Except PyError (List (String × OptVal)) :=
  let modeOpts :=
    if batch then [("mode", OptVal.str "silent")]
    else if automate then
      [("mode", OptVal.str "automated"), ("automatedModeTimeout", OptVal.int 5000)]
    else [("mode", OptVal.str "interactive")]
  match find_file_path fs this_script_dir matlab_version
      FILE_INSTALL_KEY_FILE with
  | .error e => .error e
  | .ok key_path =>
    match get_file_install_key fs key_path with
    | .error e => .error e
    | .ok key =>
      match find_file_path fs this_script_dir matlab_version
          LICENSE_FILE_NAME with
      | .error e => .error e
      | .ok license_path =>
        .ok ([("agreeToLicense", OptVal.str "yes")] ++ modeOpts ++
          [("fileInstallationKey", OptVal.str key),
           ("licensePath", OptVal.str license_path)] ++
          (match install_path with
           | some p => [("destinationFolder", OptVal.str p)]
           | none => []))

/-- `get_options_list_tuple()`: flatten the options into
`("-key", str(val), ...)` pairs in insertion order. -/
def get_options_list_tuple (options : List (String × OptVal)) : List String :=
  options.flatMap (fun kv => ["-" ++ kv.1, kv.2.toStr])

/-- What `run()` does after the already-installed check: either report, or
spawn the installer command line. -/
inductive RunAction where
  | alreadyInstalled
  | spawn (cmd : List String)
deriving DecidableEq, Repr

/-- `run()`: when the reinstall flag is off and the already-installed check
fires, print the report and stop; otherwise spawn the installer command
followed by the flattened options. -/
def run (os : OsName) (uid : Nat) (fs : FS)
    (this_script_dir matlab_version : String) (reinstall : Bool)
    (install_path : Option String) (options : List (String × OptVal)) :
    Except PyError RunAction :=
  if !reinstall && check_already_installed os fs install_path matlab_version
  then .ok .alreadyInstalled
  else
    match get_installer_cmd os uid fs this_script_dir matlab_version with
    | .error e => .error e
    | .ok cmd => .ok (.spawn (cmd ++ get_options_list_tuple options))

/-! ### The symbolic link manager

`make_symbolic_link` touches exactly one path, `/usr/local/bin/matlab`.  We
model what occupies that path, keep the rest of the filesystem as an
existence predicate untouched by the link effects, and record the method's
observable behaviour as a trace of effects. -/

/-- What occupies the link path `/usr/local/bin/matlab`. -/
inductive LinkEntry where
  | absent
  | file
  | symlink (target : String)
deriving DecidableEq, Repr

/-- State seen by `make_symbolic_link`: the entry at the link path and
existence of every other path (symlink targets live there; the link effects
never change it). -/
structure LinkFS where
  entry : LinkEntry
  targetExists : String → Bool

/-- `os.path.exists` on the link path: follows symlinks, so a dangling
symlink does not exist. -/
def os_path_exists (s : LinkFS) : Bool :=
  match s.entry with
  | .absent => false
  | .file => true
  | .symlink t => s.targetExists t

/-- `os.path.islink` on the link path. -/
def os_path_islink (s : LinkFS) : Bool :=
  match s.entry with
  | .symlink _ => true
  | _ => false

/-- `os.readlink` on the link path. -/
def os_readlink (s : LinkFS) : Option String :=
  match s.entry with
  | .symlink t => some t
  | _ => none

/-- The observable effects of `make_symbolic_link`: messages, the direct
(non-elevated) `os.remove`, and the two elevated child processes. -/
inductive Eff where
  | printOut (msg : String)
  | printErr (msg : String)
  | osRemove
  | spawnSudoRm
  | spawnSudoLn (target : String)
deriving DecidableEq, Repr

/-- Effect of one trace element on the link path.  `sudo rm -f` removes the
entry (and tolerates absence); `sudo ln -s target` creates the symlink (in
every emitted trace it follows a removal). -/
def applyEff (s : LinkFS) : Eff → LinkFS
  | .printOut _ => s
  | .printErr _ => s
  | .osRemove => { s with entry := .absent }
  | .spawnSudoRm => { s with entry := .absent }
  | .spawnSudoLn t => { s with entry := .symlink t }

/-- Does the effect mutate the filesystem or spawn a process? -/
def isMutation : Eff → Bool
  | .printOut _ => false
  | .printErr _ => false
  | .osRemove => true
  | .spawnSudoRm => true
  | .spawnSudoLn _ => true

/-- Does the effect remove the link path? -/
def removesLink : Eff → Bool
  | .osRemove => true
  | .spawnSudoRm => true
  | _ => false

/-- Is the effect run through the elevated command runner (`sudo`)? -/
def isElevated : Eff → Bool
  | .spawnSudoRm => true
  | .spawnSudoLn _ => true
  | _ => false

/-- `make_symbolic_link()`: on POSIX, inspect `/usr/local/bin/matlab`.  A
non-symlink occupant is reported on stderr and nothing happens; a symlink to
another target is reported, removed with a bare `os.remove`, and control
falls through to the elevated `rm -f` + `ln -s` pair; a symlink to the
expected binary is reported as already created; an absent (or dangling) link
goes straight to the elevated pair.  On other platforms only a message is
printed. -/
def make_symbolic_link (os : OsName) (s : LinkFS)
    (install_real_path : String) : List Eff :=
  match os with
  | .posix =>
    let matlab_link := "/usr/local/bin/matlab"
    let matlab_bin := pjoin (pjoin install_real_path "bin") "matlab"
    if os_path_exists s then
      if !os_path_islink s then
        [.printErr (matlab_link ++ " is not a symbolic link")]
      else if os_readlink s ≠ some matlab_bin then
        [.printOut (matlab_link ++ "is linked to another version of MATLAB"),
         .osRemove, .spawnSudoRm, .spawnSudoLn matlab_bin]
      else
        [.printOut (matlab_link ++ "has already been created")]
    else
      [.spawnSudoRm, .spawnSudoLn matlab_bin]
  | .nt =>
    [.printOut ("Making a symbolic link to MATLAB in /usr/local/bin" ++
      " is only supported for POSIX OSes.")]

/-- The link-path state after running `make_symbolic_link` on POSIX. -/
def mslState (s : LinkFS) (install_real_path : String) : LinkFS :=
  (make_symbolic_link .posix s install_real_path).foldl applyEff s

/-! ### Concrete filesystems used to evaluate the theorems -/

/-- Scenario filesystem: working directory holding exactly the version
directories `R2016b` and `R2017a`. -/
def fsPair : FS where
  cwd := "/work"
  isdir := fun d => d = "R2016b" || d = "R2017a"
  listdir := fun d => if d = "/work" then ["R2016b", "R2017a"] else []
  pathExists := fun _ => false
  readFile := fun _ => ""

/-- Filesystem whose working directory holds the two distinct version
directories `R02017a` and `R2017a`, which share an ordering key. -/
def fsDup : FS where
  cwd := "/work"
  isdir := fun d => d = "R02017a" || d = "R2017a"
  listdir := fun d => if d = "/work" then ["R02017a", "R2017a"] else []
  pathExists := fun _ => false
  readFile := fun _ => ""

/-- Filesystem with an empty working directory. -/
def fsEmpty : FS where
  cwd := "/work"
  isdir := fun _ => false
  listdir := fun _ => []
  pathExists := fun _ => false
  readFile := fun _ => ""

/-- Filesystem whose working directory holds the key file (content
`12-34-56-78` plus a trailing newline) and the license file. -/
def fsSupport : FS where
  cwd := "/work"
  isdir := fun d => d = "/work"
  listdir := fun d =>
    if d = "/work" then ["file_install_key.txt", "license.dat"] else []
  pathExists := fun _ => false
  readFile := fun p =>
    if p = "/work/file_install_key.txt" then "12-34-56-78\n" else ""

/-- Filesystem where only the default POSIX MATLAB R2017a binary path
exists. -/
def fsInstalled : FS where
  cwd := "/work"
  isdir := fun _ => false
  listdir := fun _ => []
  pathExists := fun p => p = "/usr/local/MATLAB/R2017a/bin/matlab"
  readFile := fun _ => ""

/-- Filesystem whose key file holds exactly `12-34-56-78`. -/
def fsKeyPlain : FS where
  cwd := "/work"
  isdir := fun d => d = "/work"
  listdir := fun d => if d = "/work" then ["file_install_key.txt"] else []
  pathExists := fun _ => false
  readFile := fun p =>
    if p = "/work/file_install_key.txt" then "12-34-56-78" else ""

/-- Filesystem whose key file holds the malformed content `abc`. -/
def fsKeyBad : FS where
  cwd := "/work"
  isdir := fun d => d = "/work"
  listdir := fun d => if d = "/work" then ["file_install_key.txt"] else []
  pathExists := fun _ => false
  readFile := fun p =>
    if p = "/work/file_install_key.txt" then "abc" else ""

/-- Link-path state: a symlink to the R2016b binary, every path existing. -/
def linkOther : LinkFS where
  entry := .symlink "/usr/local/MATLAB/R2016b/bin/matlab"
  targetExists := fun _ => true

/-- Link-path state: a symlink to the R2017a binary, every path existing. -/
def linkCorrect : LinkFS where
  entry := .symlink "/usr/local/MATLAB/R2017a/bin/matlab"
  targetExists := fun _ => true

/-- Filesystem whose key file holds a valid key preceded by a space. -/
def fsLeadingSpace : FS where
  cwd := "/work"
  isdir := fun d => d = "/work"
  listdir := fun d => if d = "/work" then ["file_install_key.txt"] else []
  pathExists := fun _ => false
  readFile := fun p =>
    if p = "/work/file_install_key.txt" then " 12-34-56-78" else ""

/-- The spec-side reading of the file-install-key pattern, used to check the
matcher translated from the source regex: `n` groups of one or more digits
joined by hyphens, and nothing else. -/
def GroupsN : Nat → List Char → Prop
  | 0, _ => False
  | 1, l => l ≠ [] ∧ ∀ c ∈ l, c.isDigit = true
  | n + 2, l => ∃ g rest, g ≠ [] ∧ (∀ c ∈ g, c.isDigit = true) ∧
      l = g ++ '-' :: rest ∧ GroupsN (n + 1) rest

/-! ### Helper lemmas: whitespace stripping -/

theorem dropWhile_append_of_forall {α : Type} {p : α → Bool} :
    ∀ {a b : List α}, (∀ c ∈ a, p c = true) →
      (a ++ b).dropWhile p = b.dropWhile p
  | [], _, _ => rfl
  | x :: xs, b, h => by
    have hx : p x = true := h x (by simp)
    simp only [List.cons_append, List.dropWhile_cons, hx, if_true]
    exact dropWhile_append_of_forall (fun c hc => h c (by simp [hc]))

theorem takeWhile_append_of_forall {α : Type} {p : α → Bool} :
    ∀ {a b : List α}, (∀ c ∈ a, p c = true) →
      (a ++ b).takeWhile p = a ++ b.takeWhile p
  | [], _, _ => rfl
  | x :: xs, b, h => by
    have hx : p x = true := h x (by simp)
    simp only [List.cons_append, List.takeWhile_cons, hx, if_true,
      List.cons.injEq, true_and]
    exact takeWhile_append_of_forall (fun c hc => h c (by simp [hc]))

theorem dropWhile_idem {α : Type} {p : α → Bool} :
    ∀ l : List α, (l.dropWhile p).dropWhile p = l.dropWhile p
  | [] => rfl
  | x :: xs => by
    by_cases hx : p x = true
    · simp [List.dropWhile_cons, hx, dropWhile_idem xs]
    · simp [List.dropWhile_cons, hx]

theorem rstripL_append_space {k ws : List Char}
    (h : ∀ c ∈ ws, isPySpace c = true) : rstripL (k ++ ws) = rstripL k := by
  unfold rstripL
  rw [List.reverse_append,
    dropWhile_append_of_forall (fun c hc => h c (List.mem_reverse.mp hc))]

theorem rstripL_of_reverse_head {k : List Char} {c : Char} {t : List Char}
    (hrev : k.reverse = c :: t) (hc : isPySpace c = false) : rstripL k = k := by
  have hk : (c :: t).reverse = k := by rw [← hrev, List.reverse_reverse]
  unfold rstripL
  rw [hrev, List.dropWhile_cons, hc]
  simpa using hk

theorem rstripL_idem (l : List Char) : rstripL (rstripL l) = rstripL l := by
  unfold rstripL
  rw [List.reverse_reverse, dropWhile_idem]

theorem rstripL_length_le (l : List Char) : (rstripL l).length ≤ l.length := by
  unfold rstripL
  calc (rstripL l).length = ((l.reverse.dropWhile isPySpace).reverse).length := rfl
    _ = (l.reverse.dropWhile isPySpace).length := by rw [List.length_reverse]
    _ ≤ l.reverse.length := (List.dropWhile_sublist _).length_le
    _ = l.length := List.length_reverse _

/-! ### Helper lemmas: the key pattern matcher -/

theorem isPySpace_isDigit_false {c : Char} (h : isPySpace c = true) :
    c.isDigit = false := by
  have hc := h
  simp only [isPySpace, Bool.or_eq_true, decide_eq_true_eq] at hc
  rcases hc with ((((hc | hc) | hc) | hc) | hc) | hc <;> subst hc <;> decide

theorem isDigit_isPySpace_false {c : Char} (h : c.isDigit = true) :
    isPySpace c = false := by
  cases hs : isPySpace c with
  | false => rfl
  | true => rw [isPySpace_isDigit_false hs] at h; exact absurd h (by simp)

theorem GroupsN_reverse_head :
    ∀ (n : Nat) (l : List Char), GroupsN n l →
      ∃ c t, l.reverse = c :: t ∧ c.isDigit = true
  | 0, _, h => h.elim
  | 1, l, h => by
    obtain ⟨hne, hdig⟩ := h
    cases hr : l.reverse with
    | nil => exact absurd (by simpa using hr) hne
    | cons c t =>
      refine ⟨c, t, rfl, hdig c ?_⟩
      have : c ∈ l.reverse := by rw [hr]; simp
      exact List.mem_reverse.mp this
  | n + 2, l, h => by
    obtain ⟨g, rest, _, _, hl, hrec⟩ := h
    obtain ⟨c, t, hr, hc⟩ := GroupsN_reverse_head (n + 1) rest hrec
    refine ⟨c, t ++ '-' :: g.reverse, ?_, hc⟩
    rw [hl, List.reverse_append, List.reverse_cons, hr]
    simp

theorem GroupsN_ne_nil {n : Nat} {l : List Char} (h : GroupsN n l) : l ≠ [] := by
  obtain ⟨c, t, hr, _⟩ := GroupsN_reverse_head n l h
  intro hnil
  rw [hnil] at hr
  exact absurd hr (by simp)

theorem keyGroups_of_groupsN :
    ∀ (n : Nat) (l : List Char), GroupsN n l →
      keyGroups l n = true ∧ keyGroups (l ++ ['\n']) n = true
  | 0, _, h => h.elim
  | 1, l, h => by
    obtain ⟨hne, hdig⟩ := h
    have htake : l.takeWhile Char.isDigit = l :=
      List.takeWhile_eq_self_iff.mpr hdig
    have hdrop : l.dropWhile Char.isDigit = [] := by
      have := List.takeWhile_append_dropWhile Char.isDigit l
      rw [htake] at this
      simpa using this
    constructor
    · simp [keyGroups, htake, hdrop, hne]
    · have htake2 : (l ++ ['\n']).takeWhile Char.isDigit = l := by
        rw [takeWhile_append_of_forall hdig]
        simp [List.takeWhile_cons]
      have hdrop2 : (l ++ ['\n']).dropWhile Char.isDigit = ['\n'] := by
        rw [dropWhile_append_of_forall hdig]
        simp [List.dropWhile_cons]
      simp [keyGroups, htake2, hdrop2, hne]
  | n + 2, l, h => by
    obtain ⟨g, rest, hg, hdig, hl, hrec⟩ := h
    have ih := keyGroups_of_groupsN (n + 1) rest hrec
    have htake : l.takeWhile Char.isDigit = g := by
      rw [hl, takeWhile_append_of_forall hdig]
      simp [List.takeWhile_cons]
    have hdrop : l.dropWhile Char.isDigit = '-' :: rest := by
      rw [hl, dropWhile_append_of_forall hdig]
      simp [List.dropWhile_cons]
    have hl2 : l ++ ['\n'] = g ++ '-' :: (rest ++ ['\n']) := by
      rw [hl]; simp
    have htake2 : (l ++ ['\n']).takeWhile Char.isDigit = g := by
      rw [hl2, takeWhile_append_of_forall hdig]
      simp [List.takeWhile_cons]
    have hdrop2 : (l ++ ['\n']).dropWhile Char.isDigit = '-' :: (rest ++ ['\n']) := by
      rw [hl2, dropWhile_append_of_forall hdig]
      simp [List.dropWhile_cons]
    constructor
    · simp [keyGroups, htake, hdrop, hg, ih.1]
    · simp [keyGroups, htake2, hdrop2, hg, ih.2]

theorem groupsN_of_keyGroups :
    ∀ (n : Nat) (l : List Char), 1 ≤ n → keyGroups l n = true →
      GroupsN n l ∨ ∃ l', l = l' ++ ['\n'] ∧ GroupsN n l'
  | 0, _, hn, _ => absurd hn (by simp)
  | 1, l, _, h => by
    simp only [keyGroups, ne_eq, Bool.and_eq_true, decide_eq_true_eq,
      Bool.or_eq_true] at h
    obtain ⟨hds, hrest⟩ := h
    have hdig : ∀ c ∈ l.takeWhile Char.isDigit, c.isDigit = true :=
      fun c hc => List.mem_takeWhile_imp hc
    have hdecomp := List.takeWhile_append_dropWhile Char.isDigit l
    rcases hrest with hrest | hrest
    · left
      rw [hrest] at hdecomp
      simp only [List.append_nil] at hdecomp
      rw [← hdecomp]
      exact ⟨hds, hdig⟩
    · right
      rw [hrest] at hdecomp
      exact ⟨l.takeWhile Char.isDigit, hdecomp.symm, hds, hdig⟩
  | n + 2, l, _, h => by
    simp only [keyGroups, ne_eq, Bool.and_eq_true, decide_eq_true_eq] at h
    obtain ⟨hds, hrest⟩ := h
    have hdig : ∀ c ∈ l.takeWhile Char.isDigit, c.isDigit = true :=
      fun c hc => List.mem_takeWhile_imp hc
    have hdecomp := List.takeWhile_append_dropWhile Char.isDigit l
    cases hdw : l.dropWhile Char.isDigit with
    | nil => rw [hdw] at hrest; exact absurd hrest (by simp)
    | cons c r =>
      rw [hdw] at hrest
      simp only [Bool.and_eq_true, decide_eq_true_eq] at hrest
      obtain ⟨hc, hr⟩ := hrest
      subst hc
      rw [hdw] at hdecomp
      rcases groupsN_of_keyGroups (n + 1) r (by omega) hr with hg | ⟨r', hr', hg⟩
      · left
        exact ⟨l.takeWhile Char.isDigit, r, hds, hdig, hdecomp.symm, hg⟩
      · right
        refine ⟨l.takeWhile Char.isDigit ++ '-' :: r', ?_,
          l.takeWhile Char.isDigit, r', hds, hdig, rfl, hg⟩
        calc l = l.takeWhile Char.isDigit ++ '-' :: r := hdecomp.symm
          _ = l.takeWhile Char.isDigit ++ '-' :: (r' ++ ['\n']) := by rw [hr']
          _ = (l.takeWhile Char.isDigit ++ '-' :: r') ++ ['\n'] := by simp

theorem keyGroups_cons_not_digit {c : Char} {l : List Char} {n : Nat}
    (hc : c.isDigit = false) : keyGroups (c :: l) n = false := by
  rcases n with _ | _ | m <;> simp [keyGroups, List.takeWhile_cons, hc]

/-- Bridge: a matcher success with no trailing newline is a plain
digit-groups decomposition. -/
theorem groupsN_of_keyGroups_plain {l : List Char}
    (h : keyGroups l 4 = true) (hnl : l.getLast? ≠ some '\n') :
    GroupsN 4 l := by
  rcases groupsN_of_keyGroups 4 l (by omega) h with hg | ⟨l', hl', _⟩
  · exact hg
  · rw [hl'] at hnl
    exact absurd (by simp) hnl

/-! ### Helper lemmas: Python `max` keeps the first maximal element -/

theorem pymaxBy_first_max (key : String → Nat) :
    ∀ (xs : List String) (x : String),
      ∃ pre post, x :: xs = pre ++ pymaxBy key x xs :: post ∧
        (∀ z ∈ pre, key z < key (pymaxBy key x xs)) ∧
        (∀ z ∈ post, key z ≤ key (pymaxBy key x xs))
  | [], x => ⟨[], [], by simp [pymaxBy], by simp, by simp⟩
  | y :: ys, x => by
    have hstep : pymaxBy key x (y :: ys) =
        if key x < key y then pymaxBy key y ys else pymaxBy key x ys := by
      by_cases hxy : key x < key y <;> simp [pymaxBy, List.foldl_cons, hxy]
    by_cases hxy : key x < key y
    · obtain ⟨pre, post, hsplit, hpre, hpost⟩ := pymaxBy_first_max key ys y
      rw [hstep, if_pos hxy]
      have hym : key y ≤ key (pymaxBy key y ys) := by
        cases pre with
        | nil =>
          simp only [List.nil_append, List.cons.injEq] at hsplit
          exact le_of_eq (congrArg key hsplit.1)
        | cons p ps =>
          simp only [List.cons_append, List.cons.injEq] at hsplit
          have hp := hpre p (by simp)
          rw [← hsplit.1] at hp
          exact le_of_lt hp
      refine ⟨x :: pre, post, ?_, ?_, hpost⟩
      · rw [List.cons_append, ← hsplit]
      · intro z hz
        rcases List.mem_cons.mp hz with hz | hz
        · subst hz
          exact lt_of_lt_of_le hxy hym
        · exact hpre z hz
    · obtain ⟨pre, post, hsplit, hpre, hpost⟩ := pymaxBy_first_max key ys x
      rw [hstep, if_neg hxy]
      have hyx : key y ≤ key x := le_of_not_lt hxy
      cases pre with
      | nil =>
        simp only [List.nil_append, List.cons.injEq] at hsplit
        refine ⟨[], y :: post, ?_, by simp, ?_⟩
        · rw [List.nil_append, ← hsplit.1, ← hsplit.2]
        · intro z hz
          rcases List.mem_cons.mp hz with hz | hz
          · subst hz
            exact le_trans hyx (le_of_eq (congrArg key hsplit.1))
          · exact hpost z hz
      | cons p ps =>
        simp only [List.cons_append, List.cons.injEq] at hsplit
        have hx_lt : key x < key (pymaxBy key x ys) := by
          have hp := hpre p (by simp)
          rw [← hsplit.1] at hp
          exact hp
        refine ⟨x :: y :: ps, post, ?_, ?_, hpost⟩
        · simp only [List.cons_append]
          exact congrArg (fun t => x :: y :: t) hsplit.2
        · intro z hz
          rcases List.mem_cons.mp hz with hz | hz
          · subst hz
            exact hx_lt
          · rcases List.mem_cons.mp hz with hz | hz
            · subst hz
              exact lt_of_le_of_lt hyx hx_lt
            · exact hpre z (by simp [hz])

/-! ### Helper lemmas: the file locator -/

theorem find_file_in_directory_eq_some {fs : FS} {file d p : String} :
    find_file_in_directory fs file (some d) = some p ↔
      (fs.isdir d = true ∧ file ∈ fs.listdir d) ∧ p = pjoin d file := by
  simp only [find_file_in_directory, Option.getD_some]
  by_cases h : (fs.isdir d && (fs.listdir d).contains file) = true
  · rw [if_pos h]
    simp only [Bool.and_eq_true, List.elem_eq_mem, decide_eq_true_eq] at h
    simp [h, eq_comm]
  · rw [if_neg h]
    simp only [Bool.and_eq_true, List.elem_eq_mem, decide_eq_true_eq] at h
    constructor
    · intro hc
      exact absurd hc (by simp)
    · rintro ⟨hc, _⟩
      exact absurd hc h

theorem find_file_in_directory_eq_none {fs : FS} {file d : String} :
    find_file_in_directory fs file (some d) = none ↔
      ¬(fs.isdir d = true ∧ file ∈ fs.listdir d) := by
  simp only [find_file_in_directory, Option.getD_some]
  by_cases h : (fs.isdir d && (fs.listdir d).contains file) = true
  · rw [if_pos h]
    simp only [Bool.and_eq_true, List.elem_eq_mem, decide_eq_true_eq] at h
    simp [h]
  · rw [if_neg h]
    simp only [Bool.and_eq_true, List.elem_eq_mem, decide_eq_true_eq] at h
    simp [h]

/-! ### Helper lemmas: heads of dropWhile results, parse shapes -/

theorem head_dropWhile_false {α : Type} {p : α → Bool} :
    ∀ {l : List α} {c : α}, (l.dropWhile p).head? = some c → p c = false
  | [], _, h => by simp at h
  | x :: xs, c, h => by
    by_cases hx : p x = true
    · rw [List.dropWhile_cons, if_pos hx] at h
      exact head_dropWhile_false h
    · rw [List.dropWhile_cons, if_neg hx] at h
      simp only [List.head?_cons, Option.some.injEq] at h
      subst h
      exact Bool.not_eq_true _ ▸ (by simpa using hx)

theorem rstripL_getLast_not_space {l : List Char} {c : Char}
    (h : (rstripL l).getLast? = some c) : isPySpace c = false := by
  rw [← List.head?_reverse] at h
  unfold rstripL at h
  rw [List.reverse_reverse] at h
  exact head_dropWhile_false h

theorem parseVersionL_minor {l : List Char} {y : Nat} {m : Char}
    (h : parseVersionL l = some (y, m)) : m = 'a' ∨ m = 'b' := by
  cases l with
  | nil => simp [parseVersionL] at h
  | cons r rest =>
    simp only [parseVersionL] at h
    split at h
    · split at h
      · exact absurd h (by simp)
      · split at h
        · rename_i m1 heq
          split at h
          · rename_i hab
            simp only [Option.some.injEq, Prod.mk.injEq] at h
            exact h.2 ▸ hab
          · exact absurd h (by simp)
        · rename_i m1 c1 heq
          split at h
          · rename_i hab
            simp only [Option.some.injEq, Prod.mk.injEq] at h
            exact h.2 ▸ hab.1
          · exact absurd h (by simp)
        · exact absurd h (by simp)
    · exact absurd h (by simp)

/-! ### Claims -/

/-- C1: the spec says an explicit version is validated against the version
pattern (`ValueError` when invalid, `NotADirectoryError` when the directory
is missing, the supplied string when both checks pass).  The code instead
calls the compiled `re.Pattern` object itself on line 149 (missing `.match`),
so every non-empty explicit version raises `TypeError` before any validation,
and an explicit version is never resolved successfully. -/
theorem c1_explicit_version_always_typeerror (fs : FS) (v : String)
    (hv : v ≠ "") :
    init_matlab_version fs (some v) =
      .error (.typeError "re.Pattern object is not callable") ∧
    ∀ s, init_matlab_version fs (some v) ≠ .ok s := by
  constructor
  · simp [init_matlab_version, hv]
  · intro s
    simp [init_matlab_version, hv]

/-- C1 witness: with directories R2016b and R2017a present and the valid
explicit version `R2017a`, the constructor still raises `TypeError` instead
of resolving the version. -/
theorem c1_explicit_version_always_typeerror_witness :
    init_matlab_version fsPair (some "R2017a") =
      .error (.typeError "re.Pattern object is not callable") ∧
    init_matlab_version fsPair (some "R2017a") ≠ .ok "R2017a" :=
  ⟨(c1_explicit_version_always_typeerror fsPair "R2017a" (by decide)).1,
   (c1_explicit_version_always_typeerror fsPair "R2017a" (by decide)).2 "R2017a"⟩

/-- C3: for valid version strings the ordering key is strictly larger for the
larger year regardless of the half-year letters, and for equal years the `b`
version keys strictly above the `a` version. -/
theorem c3_version_key_ordering (v w : String) (y1 y2 : Nat) (m1 m2 : Char)
    (hv : parseVersion v = some (y1, m1))
    (hw : parseVersion w = some (y2, m2)) :
    (y2 < y1 → matlab_version_to_key w < matlab_version_to_key v) ∧
    (y1 = y2 → m1 = 'b' → m2 = 'a' →
      matlab_version_to_key w < matlab_version_to_key v) := by
  have hm1 : m1 = 'a' ∨ m1 = 'b' := parseVersionL_minor hv
  have hm2 : m2 = 'a' ∨ m2 = 'b' := parseVersionL_minor hw
  have hk1 : matlab_version_to_key v = y1 * 2 + m1.toNat := by
    simp [matlab_version_to_key, hv]
  have hk2 : matlab_version_to_key w = y2 * 2 + m2.toNat := by
    simp [matlab_version_to_key, hw]
  have ha : ('a').toNat = 97 := rfl
  have hb : ('b').toNat = 98 := rfl
  rw [hk1, hk2]
  constructor
  · intro hy
    rcases hm1 with h1 | h1 <;> rcases hm2 with h2 | h2 <;>
      rw [h1, h2] <;> simp only [ha, hb] <;> omega
  · intro hy h1 h2
    rw [h1, h2, ha, hb]
    omega

/-- C3 witness: R2016b keys below R2017a (year dominates the letter), and
R2017a keys below R2017b (equal years, `b` above `a`). -/
theorem c3_version_key_ordering_witness :
    matlab_version_to_key "R2016b" < matlab_version_to_key "R2017a" ∧
    matlab_version_to_key "R2017a" < matlab_version_to_key "R2017b" :=
  ⟨(c3_version_key_ordering "R2017a" "R2016b" 2017 2016 'a' 'b' rfl rfl).1
      (by omega),
   (c3_version_key_ordering "R2017b" "R2017a" 2017 2017 'b' 'a' rfl rfl).2
      rfl rfl rfl⟩

/-- C5: the option builder always sets `agreeToLicense` to `yes`; with the
batch flag it sets `mode=silent` and never sets `automatedModeTimeout`; with
automate (and not batch) it sets `mode=automated` and
`automatedModeTimeout=5000`; otherwise `mode=interactive`. -/
theorem c5_add_options_modes (fs : FS) (sd ver : String)
    (batch automate : Bool) (ip : Option String)
    (opts : List (String × OptVal))
    (h : add_options fs sd ver batch automate ip = .ok opts) :
    List.lookup "agreeToLicense" opts = some (.str "yes") ∧
    (batch = true → List.lookup "mode" opts = some (.str "silent") ∧
      List.lookup "automatedModeTimeout" opts = none) ∧
    (batch = false → automate = true →
      List.lookup "mode" opts = some (.str "automated") ∧
      List.lookup "automatedModeTimeout" opts = some (.int 5000)) ∧
    (batch = false → automate = false →
      List.lookup "mode" opts = some (.str "interactive") ∧
      List.lookup "automatedModeTimeout" opts = none) := by
  cases hk : find_file_path fs sd ver FILE_INSTALL_KEY_FILE with
  | error e => simp [add_options, hk] at h
  | ok key_path =>
    simp only [add_options, hk] at h
    cases hg : get_file_install_key fs key_path with
    | error e => simp [hg] at h
    | ok key =>
      simp only [hg] at h
      cases hl : find_file_path fs sd ver LICENSE_FILE_NAME with
      | error e => simp [hl] at h
      | ok lic =>
        simp only [hl, Except.ok.injEq] at h
        subst h
        cases batch <;> cases automate <;> cases ip <;>
          simp [List.lookup]

/-- C5 witness: on a filesystem holding a valid key file and license file,
with batch off and automate on, the built options carry `mode=automated`,
`automatedModeTimeout=5000` and `agreeToLicense=yes`. -/
theorem c5_add_options_modes_witness :
    add_options fsSupport "" "R2017a" false true none =
      .ok [("agreeToLicense", OptVal.str "yes"),
        ("mode", OptVal.str "automated"),
        ("automatedModeTimeout", OptVal.int 5000),
        ("fileInstallationKey", OptVal.str "12-34-56-78"),
        ("licensePath", OptVal.str "/work/license.dat")] ∧
    List.lookup "agreeToLicense"
      [("agreeToLicense", OptVal.str "yes"),
        ("mode", OptVal.str "automated"),
        ("automatedModeTimeout", OptVal.int 5000),
        ("fileInstallationKey", OptVal.str "12-34-56-78"),
        ("licensePath", OptVal.str "/work/license.dat")] =
        some (.str "yes") ∧
    List.lookup "mode"
      [("agreeToLicense", OptVal.str "yes"),
        ("mode", OptVal.str "automated"),
        ("automatedModeTimeout", OptVal.int 5000),
        ("fileInstallationKey", OptVal.str "12-34-56-78"),
        ("licensePath", OptVal.str "/work/license.dat")] =
        some (.str "automated") ∧
    List.lookup "automatedModeTimeout"
      [("agreeToLicense", OptVal.str "yes"),
        ("mode", OptVal.str "automated"),
        ("automatedModeTimeout", OptVal.int 5000),
        ("fileInstallationKey", OptVal.str "12-34-56-78"),
        ("licensePath", OptVal.str "/work/license.dat")] =
        some (.int 5000) := by
  have h := c5_add_options_modes fsSupport "" "R2017a" false true none
    [("agreeToLicense", OptVal.str "yes"),
      ("mode", OptVal.str "automated"),
      ("automatedModeTimeout", OptVal.int 5000),
      ("fileInstallationKey", OptVal.str "12-34-56-78"),
      ("licensePath", OptVal.str "/work/license.dat")] (by rfl)
  exact ⟨by rfl, h.1, (h.2.2.1 rfl rfl).1, (h.2.2.1 rfl rfl).2⟩

/-- C7: `run` first tests whether the target is already installed — the
existence of the platform default binary path, or of the destination override
when one was supplied — and, when the check fires and the reinstall flag is
off, reports already-installed without spawning; otherwise it spawns the
assembled installer command line. -/
theorem c7_run_skips_when_installed (os : OsName) (uid : Nat) (fs : FS)
    (sd ver : String) (reinstall : Bool) (ip : Option String)
    (opts : List (String × OptVal)) :
    (check_already_installed os fs ip ver =
      fs.pathExists (match ip with
        | some p => p
        | none =>
          if os = .nt then
            "C:\\Program Files\\MATLAB\\" ++ ver ++ "\\bin\\matlab.exe"
          else "/usr/local/MATLAB/" ++ ver ++ "/bin/matlab")) ∧
    (reinstall = false → check_already_installed os fs ip ver = true →
      run os uid fs sd ver reinstall ip opts = .ok .alreadyInstalled) ∧
    (∀ cmd, (reinstall = true ∨ check_already_installed os fs ip ver = false) →
      get_installer_cmd os uid fs sd ver = .ok cmd →
      run os uid fs sd ver reinstall ip opts =
        .ok (.spawn (cmd ++ get_options_list_tuple opts))) := by
  refine ⟨?_, ?_, ?_⟩
  · cases ip <;> simp [check_already_installed, matlab_bin_default_path]
  · intro hr hc
    simp [run, hr, hc]
  · intro cmd hor hcmd
    rcases hor with hr | hc
    · simp [run, hr, hcmd]
    · simp [run, hc, hcmd]

/-- C7 witness: on a filesystem where the default R2017a binary path exists
and reinstall is off, `run` reports already-installed and spawns nothing. -/
theorem c7_run_skips_when_installed_witness :
    run .posix 0 fsInstalled "" "R2017a" false none [] =
      .ok .alreadyInstalled :=
  (c7_run_skips_when_installed .posix 0 fsInstalled "" "R2017a" false none
      []).2.1 rfl (by rfl)

/-- C2 counterexample: the distinct directory names `R02017a` and `R2017a`
both match the version pattern and share the ordering key (leading zeros are
dropped by the numeric year), so no unique maximum under the key exists, yet
the resolver still returns the first of them. -/
theorem c2_no_unique_maximum :
    find_latest_matlab_version fsDup = .ok "R02017a" ∧
    "R2017a" ∈ (fsDup.listdir fsDup.cwd).filter
      (fun d => fsDup.isdir d && (parseVersion d).isSome) ∧
    matlab_version_to_key "R2017a" = matlab_version_to_key "R02017a" ∧
    ("R02017a" : String) ≠ "R2017a" :=
  ⟨rfl, by decide, rfl, by decide⟩

/-- C2 (amended): the resolver considers exactly the working-directory
entries that are directories matching the version pattern, errors when that
set is empty, and otherwise returns the first entry, in listing order, whose
ordering key is maximal — the unique maximum whenever no two matching names
share a key; with directories R2016b and R2017a it resolves R2017a. -/
theorem c2_find_latest_first_max (fs : FS) (vs : List String)
    (hvs : vs = (fs.listdir fs.cwd).filter
      (fun d => fs.isdir d && (parseVersion d).isSome)) :
    (vs = [] → find_latest_matlab_version fs =
      .error (.fileNotFoundError "There are no directories of MATLAB.")) ∧
    (∀ m, find_latest_matlab_version fs = .ok m →
      ∃ pre post, vs = pre ++ m :: post ∧
        (∀ z ∈ pre, matlab_version_to_key z < matlab_version_to_key m) ∧
        (∀ z ∈ post, matlab_version_to_key z ≤ matlab_version_to_key m)) ∧
    find_latest_matlab_version fsPair = .ok "R2017a" := by
  subst hvs
  refine ⟨?_, ?_, rfl⟩
  · intro hnil
    simp [find_latest_matlab_version, hnil]
  · intro m hm
    simp only [find_latest_matlab_version] at hm
    cases hl : (fs.listdir fs.cwd).filter
        (fun d => fs.isdir d && (parseVersion d).isSome) with
    | nil => rw [hl] at hm; exact absurd hm (by simp)
    | cons x xs =>
      rw [hl] at hm
      simp only [Except.ok.injEq] at hm
      obtain ⟨pre, post, hsplit, hpre, hpost⟩ :=
        pymaxBy_first_max matlab_version_to_key xs x
      rw [hm] at hsplit hpre hpost
      exact ⟨pre, post, hsplit, hpre, hpost⟩

/-- C2 witness: with an empty working directory the resolver raises the
not-found error. -/
theorem c2_find_latest_first_max_witness :
    find_latest_matlab_version fsEmpty =
      .error (.fileNotFoundError "There are no directories of MATLAB.") :=
  (c2_find_latest_first_max fsEmpty [] rfl).1 rfl

/-- C4: the file locator searches, in order, the current directory,
current-directory/version, and — only when the script directory string is
non-empty — the script directory and script-directory/version; it returns the
join of the first candidate that is a directory containing the named file,
and raises the not-found error exactly when no candidate contains it. -/
theorem c4_find_file_path_first_hit (fs : FS) (sd ver file : String)
    (cands : List String)
    (hcands : cands = [fs.cwd, pjoin fs.cwd ver] ++
      (if sd ≠ "" then [sd, pjoin sd ver] else [])) :
    (∀ p, find_file_path fs sd ver file = .ok p ↔
      ∃ pre d post, cands = pre ++ d :: post ∧
        (∀ d2 ∈ pre, ¬(fs.isdir d2 = true ∧ file ∈ fs.listdir d2)) ∧
        (fs.isdir d = true ∧ file ∈ fs.listdir d) ∧ p = pjoin d file) ∧
    (find_file_path fs sd ver file =
        .error (.fileNotFoundError ("No files named " ++ file ++ " are found")) ↔
      ∀ d ∈ cands, ¬(fs.isdir d = true ∧ file ∈ fs.listdir d)) := by
  subst hcands
  constructor
  · intro p
    constructor
    · intro h
      simp only [find_file_path] at h
      cases hres : ([fs.cwd, pjoin fs.cwd ver] ++
          (if sd ≠ "" then [sd, pjoin sd ver] else [])).filterMap
            (fun d => find_file_in_directory fs file (some d)) with
      | nil => rw [hres] at h; exact absurd h (by simp)
      | cons q rest =>
        rw [hres] at h
        simp only [Except.ok.injEq] at h
        subst h
        rw [List.filterMap_eq_cons_iff] at hres
        obtain ⟨pre, d, post, hsplit, hnone, hsome, _⟩ := hres
        obtain ⟨hcond, hp⟩ := find_file_in_directory_eq_some.mp hsome
        exact ⟨pre, d, post, hsplit,
          fun d2 hd2 => find_file_in_directory_eq_none.mp (hnone d2 hd2),
          hcond, hp⟩
    · rintro ⟨pre, d, post, hsplit, hpre, hcond, hp⟩
      have hfm : ([fs.cwd, pjoin fs.cwd ver] ++
          (if sd ≠ "" then [sd, pjoin sd ver] else [])).filterMap
            (fun d => find_file_in_directory fs file (some d)) =
          p :: List.filterMap
            (fun d => find_file_in_directory fs file (some d)) post := by
        rw [hsplit, List.filterMap_append]
        have h1 : List.filterMap
            (fun d => find_file_in_directory fs file (some d)) pre = [] :=
          List.filterMap_eq_nil_iff.mpr
            (fun a ha => find_file_in_directory_eq_none.mpr (hpre a ha))
        have h2 : find_file_in_directory fs file (some d) = some p :=
          find_file_in_directory_eq_some.mpr ⟨hcond, hp⟩
        rw [h1, List.filterMap_cons, h2]
        rfl
      simp only [find_file_path, hfm]
  · constructor
    · intro h d hd
      simp only [find_file_path] at h
      cases hres : ([fs.cwd, pjoin fs.cwd ver] ++
          (if sd ≠ "" then [sd, pjoin sd ver] else [])).filterMap
            (fun d => find_file_in_directory fs file (some d)) with
      | nil =>
        exact find_file_in_directory_eq_none.mp
          (List.filterMap_eq_nil_iff.mp hres d hd)
      | cons q rest => rw [hres] at h; exact absurd h (by simp)
    · intro hall
      have hfm : ([fs.cwd, pjoin fs.cwd ver] ++
          (if sd ≠ "" then [sd, pjoin sd ver] else [])).filterMap
            (fun d => find_file_in_directory fs file (some d)) = [] :=
        List.filterMap_eq_nil_iff.mpr
          (fun a ha => find_file_in_directory_eq_none.mpr (hall a ha))
      simp only [find_file_path, hfm]

/-- C4 witness: on a filesystem whose working directory `/work` holds
`license.dat`, the locator returns `/work/license.dat`, the join with the
first candidate. -/
theorem c4_find_file_path_first_hit_witness :
    find_file_path fsSupport "" "R2017a" "license.dat" =
      .ok "/work/license.dat" :=
  ((c4_find_file_path_first_hit fsSupport "" "R2017a" "license.dat"
      ["/work", "/work/R2017a"] (by rfl)).1 "/work/license.dat").mpr
    ⟨[], "/work", ["/work/R2017a"], rfl, by simp, ⟨rfl, by decide⟩, rfl⟩

/-- C6: `get_file_install_key` returns the stripped file content exactly when
it is four groups of one or more digits joined by hyphens, and raises the
validation `RuntimeError` otherwise; in particular `12-34-56-78` is accepted
and `abc` is rejected. -/
theorem c6_key_validation (fs : FS) (path : String) :
    (∀ k, get_file_install_key fs path = .ok k ↔
      (k = pyRstrip (fs.readFile path) ∧ GroupsN 4 k.data)) ∧
    get_file_install_key fsKeyPlain "/work/file_install_key.txt" =
      .ok "12-34-56-78" ∧
    get_file_install_key fsKeyBad "/work/file_install_key.txt" =
      .error (.runtimeError ("The file install key abc in " ++
        "/work/file_install_key.txt is not a valid one.")) := by
  refine ⟨?_, rfl, rfl⟩
  intro k
  constructor
  · intro h
    simp only [get_file_install_key] at h
    by_cases hm :
        file_install_key_match (pyRstrip (fs.readFile path)) = true
    · rw [if_pos hm] at h
      simp only [Except.ok.injEq] at h
      subst h
      refine ⟨rfl, ?_⟩
      have hnl : (pyRstrip (fs.readFile path)).data.getLast? ≠ some '\n' := by
        intro heq
        have hf := rstripL_getLast_not_space
          (l := (fs.readFile path).data) heq
        exact absurd hf (by decide)
      exact groupsN_of_keyGroups_plain hm hnl
    · rw [if_neg hm] at h
      exact absurd h (by simp)
  · rintro ⟨rfl, hg⟩
    have hm : file_install_key_match (pyRstrip (fs.readFile path)) = true :=
      (keyGroups_of_groupsN 4 _ hg).1
    simp [get_file_install_key, hm]

/-- C6 witness: on the filesystem whose key file holds `12-34-56-78`, the
validated key is returned and is the stripped content, a four-digit-group
decomposition. -/
theorem c6_key_validation_witness :
    ("12-34-56-78" : String) =
      pyRstrip (fsKeyPlain.readFile "/work/file_install_key.txt") ∧
    GroupsN 4 ("12-34-56-78" : String).data :=
  ((c6_key_validation fsKeyPlain "/work/file_install_key.txt").1
    "12-34-56-78").mp rfl

/-- C10: `get_file_install_key` strips trailing whitespace before validating:
a valid digit-groups key followed by trailing whitespace is accepted and
returned without the whitespace, every returned key is stripping-invariant
(no trailing whitespace), and leading whitespace is not stripped and forces
rejection. -/
theorem c10_trailing_whitespace_stripped :
    (∀ (fs : FS) (path : String) (k ws : List Char),
      fs.readFile path = String.mk (k ++ ws) → GroupsN 4 k →
      (∀ c ∈ ws, isPySpace c = true) →
      get_file_install_key fs path = .ok (String.mk k)) ∧
    (∀ (fs : FS) (path : String) (r : String),
      get_file_install_key fs path = .ok r → pyRstrip r = r) ∧
    (∀ (fs : FS) (path : String) (k ws : List Char) (w : Char),
      fs.readFile path = String.mk (w :: ws ++ k) → isPySpace w = true →
      GroupsN 4 k →
      ∃ m, get_file_install_key fs path = .error (.runtimeError m)) := by
  refine ⟨?_, ?_, ?_⟩
  · intro fs path k ws hread hg hws
    obtain ⟨c, t, hrev, hc⟩ := GroupsN_reverse_head 4 k hg
    have hstrip : rstripL (k ++ ws) = k := by
      rw [rstripL_append_space hws]
      exact rstripL_of_reverse_head hrev (isDigit_isPySpace_false hc)
    have hkey : pyRstrip (fs.readFile path) = String.mk k := by
      rw [hread]
      show String.mk (rstripL (k ++ ws)) = String.mk k
      rw [hstrip]
    have hm : file_install_key_match (String.mk k) = true :=
      (keyGroups_of_groupsN 4 k hg).1
    simp [get_file_install_key, hkey, hm]
  · intro fs path r h
    simp only [get_file_install_key] at h
    by_cases hm :
        file_install_key_match (pyRstrip (fs.readFile path)) = true
    · rw [if_pos hm] at h
      simp only [Except.ok.injEq] at h
      subst h
      exact congrArg String.mk (rstripL_idem (fs.readFile path).data)
    · rw [if_neg hm] at h
      exact absurd h (by simp)
  · intro fs path k ws w hread hw hg
    obtain ⟨c, t, hrev, hc⟩ := GroupsN_reverse_head 4 k hg
    have hrev2 : (w :: ws ++ k).reverse = c :: (t ++ (w :: ws).reverse) := by
      rw [List.reverse_append, hrev]
      simp
    have hstrip : rstripL (w :: ws ++ k) = w :: ws ++ k :=
      rstripL_of_reverse_head hrev2 (isDigit_isPySpace_false hc)
    have hm : file_install_key_match (pyRstrip (fs.readFile path)) = false := by
      rw [hread]
      show keyGroups (rstripL (w :: ws ++ k)) 4 = false
      rw [hstrip]
      show keyGroups (w :: (ws ++ k)) 4 = false
      exact keyGroups_cons_not_digit (isPySpace_isDigit_false hw)
    refine ⟨"The file install key " ++ pyRstrip (fs.readFile path) ++
      " in " ++ path ++ " is not a valid one.", ?_⟩
    simp [get_file_install_key, hm]

/-- C10 witness: the key file content `12-34-56-78` plus a newline is
accepted with the newline stripped, while a leading space before the same
valid key is rejected. -/
theorem c10_trailing_whitespace_stripped_witness :
    get_file_install_key fsSupport "/work/file_install_key.txt" =
      .ok (String.mk
        ['1', '2', '-', '3', '4', '-', '5', '6', '-', '7', '8']) ∧
    (∃ m, get_file_install_key fsLeadingSpace "/work/file_install_key.txt" =
      .error (.runtimeError m)) := by
  have hg : GroupsN 4 ['1', '2', '-', '3', '4', '-', '5', '6', '-', '7', '8'] :=
    groupsN_of_keyGroups_plain (by decide) (by decide)
  exact ⟨c10_trailing_whitespace_stripped.1 fsSupport
      "/work/file_install_key.txt"
      ['1', '2', '-', '3', '4', '-', '5', '6', '-', '7', '8'] ['\n']
      rfl hg (by decide),
    c10_trailing_whitespace_stripped.2.2 fsLeadingSpace
      "/work/file_install_key.txt"
      ['1', '2', '-', '3', '4', '-', '5', '6', '-', '7', '8'] [] ' '
      rfl (by decide) hg⟩

/-- C8: on POSIX, when a symlink at the fixed link path already points to the
resolved target binary the manager only reports it has already been created
(one message, no removal, no creation, no spawn) and the state is unchanged;
a non-symlink occupant is reported on stderr with no action; and a second run
after any run on a non-file state reports already-created and leaves the
state unchanged. -/
theorem c8_symlink_noop_when_correct (s : LinkFS) (irp : String) :
    (s.entry = .symlink (pjoin (pjoin irp "bin") "matlab") →
      s.targetExists (pjoin (pjoin irp "bin") "matlab") = true →
      make_symbolic_link .posix s irp =
        [.printOut ("/usr/local/bin/matlab" ++ "has already been created")] ∧
      mslState s irp = s) ∧
    (s.entry = .file →
      make_symbolic_link .posix s irp =
        [.printErr ("/usr/local/bin/matlab" ++ " is not a symbolic link")] ∧
      mslState s irp = s) ∧
    (s.entry ≠ .file →
      s.targetExists (pjoin (pjoin irp "bin") "matlab") = true →
      make_symbolic_link .posix (mslState s irp) irp =
        [.printOut ("/usr/local/bin/matlab" ++ "has already been created")] ∧
      mslState (mslState s irp) irp = mslState s irp) := by
  have hbranch : ∀ (st : LinkFS),
      st.entry = .symlink (pjoin (pjoin irp "bin") "matlab") →
      st.targetExists (pjoin (pjoin irp "bin") "matlab") = true →
      make_symbolic_link .posix st irp =
        [.printOut ("/usr/local/bin/matlab" ++ "has already been created")] := by
    intro st h1 h2
    simp [make_symbolic_link, os_path_exists, os_path_islink, os_readlink,
      h1, h2]
  refine ⟨?_, ?_, ?_⟩
  · intro h1 h2
    refine ⟨hbranch s h1 h2, ?_⟩
    show (make_symbolic_link .posix s irp).foldl applyEff s = s
    rw [hbranch s h1 h2]
    rfl
  · intro h1
    constructor
    · simp [make_symbolic_link, os_path_exists, os_path_islink, h1]
    · show (make_symbolic_link .posix s irp).foldl applyEff s = s
      have ht : make_symbolic_link .posix s irp =
          [.printErr ("/usr/local/bin/matlab" ++ " is not a symbolic link")] := by
        simp [make_symbolic_link, os_path_exists, os_path_islink, h1]
      rw [ht]
      rfl
  · intro hnf ht
    have hstate : (mslState s irp).entry =
        .symlink (pjoin (pjoin irp "bin") "matlab") ∧
        (mslState s irp).targetExists = s.targetExists := by
      cases hse : s.entry with
      | absent =>
        constructor <;>
          simp [mslState, make_symbolic_link, os_path_exists, hse, applyEff]
      | file => exact absurd hse hnf
      | symlink t =>
        by_cases hex : s.targetExists t = true
        · by_cases hbt : t = pjoin (pjoin irp "bin") "matlab"
          · subst hbt
            constructor <;>
              simp [mslState, make_symbolic_link, os_path_exists,
                os_path_islink, os_readlink, hse, hex, applyEff]
          · constructor <;>
              simp [mslState, make_symbolic_link, os_path_exists,
                os_path_islink, os_readlink, hse, hex, hbt, applyEff]
        · have hex2 : s.targetExists t = false := by
            cases hb : s.targetExists t with
            | false => rfl
            | true => exact absurd hb hex
          constructor <;>
            simp [mslState, make_symbolic_link, os_path_exists, hse, hex2,
              applyEff]
    have h1 := hbranch (mslState s irp) hstate.1 (by rw [hstate.2]; exact ht)
    refine ⟨h1, ?_⟩
    show (make_symbolic_link .posix (mslState s irp) irp).foldl applyEff
      (mslState s irp) = mslState s irp
    rw [h1]
    rfl

/-- C8 witness: with the link already pointing to the resolved R2017a binary,
the manager emits exactly the already-created message and changes nothing. -/
theorem c8_symlink_noop_when_correct_witness :
    make_symbolic_link .posix linkCorrect "/usr/local/MATLAB/R2017a" =
      [.printOut ("/usr/local/bin/matlab" ++ "has already been created")] ∧
    mslState linkCorrect "/usr/local/MATLAB/R2017a" = linkCorrect :=
  (c8_symlink_noop_when_correct linkCorrect "/usr/local/MATLAB/R2017a").1
    rfl rfl

/-- C9: the spec says link removal and creation are always performed with
elevated privileges, but when the existing symlink points to another target
the code first calls the non-elevated `os.remove` on the link (line 270)
before the elevated `rm -f`: the emitted trace contains a removal that is not
run through the elevated command runner. -/
theorem c9_remove_not_elevated :
    make_symbolic_link .posix linkOther "/usr/local/MATLAB/R2017a" =
      [.printOut ("/usr/local/bin/matlab" ++
        "is linked to another version of MATLAB"),
       .osRemove, .spawnSudoRm,
       .spawnSudoLn "/usr/local/MATLAB/R2017a/bin/matlab"] ∧
    Eff.osRemove ∈ make_symbolic_link .posix linkOther
      "/usr/local/MATLAB/R2017a" ∧
    removesLink .osRemove = true ∧ isElevated .osRemove = false :=
  ⟨by decide, by decide, rfl, rfl⟩

end EasyInstall
